import Mathlib

/-
Verification of the BareConductive midi_theremin sketch
(src/midi_theremin/midi_theremin.ino) against its natural-language
specification.

Embedding conventions:
* C `byte` values are modelled as `Nat`, with an explicit `% 256` where the
  source relies on unsigned 8-bit wraparound (the `instrument` counter);
  `int` sensor readings are modelled as `Int`.
* C `float` arithmetic is modelled over `ℝ`; the C library `pow` is
  `Real.rpow`.  Lean defines `x / 0 = 0` while C floats produce NaN, so
  theorems about the mapper carry a nondegenerate-range hypothesis except
  where the degenerate call itself is the subject.
* The implicit float-to-byte store `note = fscale(...)` truncates toward
  zero; for the nonnegative values arising here that is `Int.floor`
  followed by `Int.toNat`.
* MIDI output is modelled as the list of bytes written to the software
  serial port during one operation; console prints and the LED are
  ignored (the spec treats them as informational only).
-/

namespace MidiTheremin

/-! Configuration constants, from the top of the sketch. -/

def min_note : ℕ := 40
def max_note : ℕ := 100
def min_volume : ℕ := 0
def max_volume : ℕ := 127
def direction_pitch : ℕ := 0
def nonlinear_pitch : ℤ := -10
def direction_volume : ℕ := 0
def nonlinear_volume : ℤ := -10
def min_instrument : ℕ := 0
def max_instrument : ℕ := 127
def velocity : ℕ := 60

/-- `change_instrument` from the sketch.  The global `byte instrument` is
passed in and the updated value returned.  `instrument++`/`instrument--`
wrap modulo 256 (unsigned byte); the comparisons `instrument >
max_instrument` and `instrument < min_instrument` are on the promoted
nonnegative values, exactly as in C. -/
def change_instrument (instrument : ℕ) (change : ℤ) : ℕ :=
  if change = 1 then
    let i := (instrument + 1) % 256
    if i > max_instrument then min_instrument else i
  else if change = -1 then
    let i := (instrument + 255) % 256
    if i < min_instrument then max_instrument else i
  else instrument

/-- `talkMIDI` from the sketch: the bytes written to the serial port.
`cmd` and `data1` are always written; `data2` is written exactly when
`(cmd & 0xF0) <= 0xB0`.  No range validation is performed. -/
def talkMIDI (cmd data1 data2 : ℕ) : List ℕ :=
  [cmd, data1] ++ (if cmd &&& 0xF0 ≤ 0xB0 then [data2] else [])

/-- `noteOn` from the sketch. -/
def noteOn (channel note attack_velocity : ℕ) : List ℕ :=
  talkMIDI (0x90 ||| channel) note attack_velocity

/-- `noteOff` from the sketch. -/
def noteOff (channel note release_velocity : ℕ) : List ℕ :=
  talkMIDI (0x80 ||| channel) note release_velocity

/-- Claim C1: on an instrument-up edge the index increments and wraps
from 127 to 0; on an instrument-down edge it is claimed to wrap from 0 to
127.  The increments behave as claimed, but the decrement at index 0
leaves 255: `instrument` is an unsigned byte, so `instrument--` yields 255
and the guard `instrument < min_instrument` (with `min_instrument = 0`) is
always false, making the wrap-to-maximum assignment dead code.  This
theorem evaluates the code at the failing input. -/
theorem change_instrument_down_at_zero :
    change_instrument 127 1 = 0
    ∧ change_instrument 0 1 = 1
    ∧ change_instrument 0 (-1) = 255
    ∧ change_instrument 0 (-1) ≠ max_instrument := by
  refine ⟨?_, ?_, ?_, ?_⟩ <;> decide

/-- Claim C8: `talkMIDI cmd data1 data2` writes exactly `[cmd, data1,
data2]` when the high nibble of `cmd` is at most `0xB0`, and exactly
`[cmd, data1]` when the high nibble is `0xC0` or above; the decision
depends only on the high nibble, and no range validation is performed on
any byte (the equations hold for all natural-number arguments). -/
theorem talkMIDI_format (cmd data1 data2 : ℕ) :
    (cmd &&& 0xF0 ≤ 0xB0 → talkMIDI cmd data1 data2 = [cmd, data1, data2])
    ∧ (0xC0 ≤ cmd &&& 0xF0 → talkMIDI cmd data1 data2 = [cmd, data1])
    ∧ (∀ cmd2 : ℕ, cmd &&& 0xF0 = cmd2 &&& 0xF0 →
        (talkMIDI cmd data1 data2).length = (talkMIDI cmd2 data1 data2).length) := by
  refine ⟨?_, ?_, ?_⟩
  · intro h
    simp [talkMIDI, if_pos h]
  · intro h
    have hn : ¬ cmd &&& 0xF0 ≤ 0xB0 := by omega
    simp [talkMIDI, if_neg hn]
  · intro cmd2 h
    by_cases hc : cmd &&& 0xF0 ≤ 0xB0
    · have hc2 : cmd2 &&& 0xF0 ≤ 0xB0 := h ▸ hc
      simp [talkMIDI, if_pos hc, if_pos hc2]
    · have hc2 : ¬ cmd2 &&& 0xF0 ≤ 0xB0 := h ▸ hc
      simp [talkMIDI, if_neg hc, if_neg hc2]

/-- Witness for `talkMIDI_format`: a control-change status byte (high
nibble `0xB0`) carries two data bytes. -/
theorem talkMIDI_format_witness :
    (0xB0 &&& 0xF0 ≤ 0xB0) ∧ talkMIDI 0xB0 0x07 100 = [0xB0, 0x07, 100] :=
  ⟨by decide, (talkMIDI_format 0xB0 0x07 100).1 (by decide)⟩

/-! The nonlinear range mapper `fscale`, over `ℝ`.  The curve
conditioning and the input clamp are hoisted into named functions
mirroring the statements of the source in order. -/

/-- The curve conditioning at the top of `fscale`: clamp `curve` to
`[-10, 10]`, invert and scale by `-0.1`, then `pow(10, ...)`. -/
noncomputable def curveExp (curve : ℝ) : ℝ :=
  let c1 := if curve > 10 then 10 else curve
  let c2 := if c1 < -10 then -10 else c1
  (10 : ℝ) ^ (c2 * (-0.1))

/-- The out-of-range input check in `fscale`: values below
`originalMin` become `originalMin`, then values above `originalMax`
become `originalMax`. -/
noncomputable def clampInput (originalMin originalMax inputValue : ℝ) : ℝ :=
  let i1 := if inputValue < originalMin then originalMin else inputValue
  if i1 > originalMax then originalMax else i1

/-- `fscale` from the sketch (the Arduino playground function).
`normalizedCurVal` is `(clamped - originalMin) / OriginalRange`; with
`OriginalRange = 0` Lean gives `0` where C floats give NaN, so every
theorem below that evaluates this path carries an `originalMin <
originalMax` hypothesis, except `fscale_self` which documents the
degenerate call itself. -/
noncomputable def fscale
    (originalMin originalMax newBegin newEnd inputValue curve : ℝ) : ℝ :=
  let curveC := curveExp curve
  let inputC := clampInput originalMin originalMax inputValue
  let OriginalRange := originalMax - originalMin
  let NewRange := if newEnd > newBegin then newEnd - newBegin else newBegin - newEnd
  let invFlag : Bool := if newEnd > newBegin then false else true
  let zeroRefCurVal := inputC - originalMin
  let normalizedCurVal := zeroRefCurVal / OriginalRange
  if originalMin > originalMax then 0
  else if invFlag = false then normalizedCurVal ^ curveC * NewRange + newBegin
  else newBegin - normalizedCurVal ^ curveC * NewRange

lemma curveExp_pos (c : ℝ) : 0 < curveExp c := by
  simp only [curveExp]
  exact Real.rpow_pos_of_pos (by norm_num) _

lemma curveExp_zero : curveExp 0 = 1 := by
  simp only [curveExp]
  rw [if_neg (by norm_num : ¬ (0:ℝ) > 10), if_neg (by norm_num : ¬ (0:ℝ) < -10),
    show ((0:ℝ) * (-0.1)) = 0 by norm_num, Real.rpow_zero]

lemma curveExp_neg_ten : curveExp (-10) = 10 := by
  simp only [curveExp]
  rw [if_neg (by norm_num : ¬ (-10:ℝ) > 10), if_neg (by norm_num : ¬ (-10:ℝ) < -10),
    show ((-10:ℝ) * (-0.1)) = 1 by norm_num, Real.rpow_one]

lemma clampInput_eq_self {a b v : ℝ} (h1 : a ≤ v) (h2 : v ≤ b) :
    clampInput a b v = v := by
  simp only [clampInput]
  rw [if_neg (not_lt.mpr h1), if_neg (not_lt.mpr h2)]

lemma clampInput_mem (a b v : ℝ) (hab : a ≤ b) :
    a ≤ clampInput a b v ∧ clampInput a b v ≤ b := by
  simp only [clampInput]
  constructor <;> (split_ifs <;> linarith)

lemma clampInput_mono (a b : ℝ) {v1 v2 : ℝ} (h : v1 ≤ v2) :
    clampInput a b v1 ≤ clampInput a b v2 := by
  simp only [clampInput]
  split_ifs <;> linarith

lemma fscale_asc {a b nb ne : ℝ} (v c : ℝ) (hab : ¬ a > b) (hne : ne > nb) :
    fscale a b nb ne v c =
      ((clampInput a b v - a) / (b - a)) ^ curveExp c * (ne - nb) + nb := by
  simp only [fscale, if_pos hne, if_neg hab]
  simp

lemma fscale_desc {a b nb ne : ℝ} (v c : ℝ) (hab : ¬ a > b) (hne : ¬ ne > nb) :
    fscale a b nb ne v c =
      nb - ((clampInput a b v - a) / (b - a)) ^ curveExp c * (nb - ne) := by
  simp only [fscale, if_neg hne, if_neg hab]
  simp

/-- A degenerate-range call: with `originalMin = originalMax` the model
returns `newBegin` (in C this path divides zero by zero and the result is
NaN; the theorem only records which calls take this path). -/
lemma fscale_self (a nb ne v c : ℝ) : fscale a a nb ne v c = nb := by
  have hk := curveExp_pos c
  simp only [fscale, if_neg (lt_irrefl a)]
  rw [sub_self, div_zero, Real.zero_rpow (ne_of_gt hk)]
  by_cases hne : ne > nb <;> simp [hne]

/-- Claim C4: for curvature in `[-10, 10]` and `inMin < value < inMax`,
the mapper output lies in the closed interval between the two output
endpoints. -/
theorem fscale_output_bounded (a b nb ne v c : ℝ)
    (_hc1 : -10 ≤ c) (_hc2 : c ≤ 10) (h1 : a < v) (h2 : v < b) :
    min nb ne ≤ fscale a b nb ne v c ∧ fscale a b nb ne v c ≤ max nb ne := by
  have hab : ¬ a > b := not_lt.mpr (by linarith)
  have hcl : clampInput a b v = v := clampInput_eq_self h1.le h2.le
  have ht0 : 0 ≤ (v - a) / (b - a) := div_nonneg (by linarith) (by linarith)
  have ht1 : (v - a) / (b - a) ≤ 1 := by
    rw [div_le_one (by linarith)]
    linarith
  have hk : 0 < curveExp c := curveExp_pos c
  have htk0 : 0 ≤ ((v - a) / (b - a)) ^ curveExp c := Real.rpow_nonneg ht0 _
  have htk1 : ((v - a) / (b - a)) ^ curveExp c ≤ 1 := Real.rpow_le_one ht0 ht1 hk.le
  by_cases hne : ne > nb
  · rw [fscale_asc v c hab hne, hcl]
    constructor
    · calc min nb ne ≤ nb := min_le_left _ _
        _ ≤ _ := by nlinarith
    · calc ((v - a) / (b - a)) ^ curveExp c * (ne - nb) + nb ≤ ne := by nlinarith
        _ ≤ max nb ne := le_max_right _ _
  · rw [fscale_desc v c hab hne, hcl]
    have hne' : ne ≤ nb := not_lt.mp hne
    constructor
    · calc min nb ne ≤ ne := min_le_right _ _
        _ ≤ _ := by nlinarith
    · calc nb - ((v - a) / (b - a)) ^ curveExp c * (nb - ne) ≤ nb := by nlinarith
        _ ≤ max nb ne := le_max_left _ _

/-- Witness for `fscale_output_bounded` at `inMin = 0`, `inMax = 1`,
`outA = 0`, `outB = 1`, `value = 1/2`, `c = 0`. -/
theorem fscale_output_bounded_witness :
    ((-10:ℝ) ≤ 0 ∧ (0:ℝ) ≤ 10 ∧ (0:ℝ) < 1/2 ∧ (1/2:ℝ) < 1)
    ∧ (min (0:ℝ) 1 ≤ fscale 0 1 0 1 (1/2) 0
        ∧ fscale 0 1 0 1 (1/2) 0 ≤ max (0:ℝ) 1) :=
  ⟨by norm_num,
    fscale_output_bounded 0 1 0 1 (1/2) 0 (by norm_num) (by norm_num)
      (by norm_num) (by norm_num)⟩

/-- Claim C5: for a fixed nondegenerate input range and fixed curvature,
`fscale` is monotonically non-decreasing in the input value when
`outB > outA`, and monotonically non-increasing otherwise. -/
theorem fscale_monotone (a b nb ne c v1 v2 : ℝ)
    (hab : a < b) (hv : v1 ≤ v2) :
    (nb < ne → fscale a b nb ne v1 c ≤ fscale a b nb ne v2 c)
    ∧ (ne ≤ nb → fscale a b nb ne v2 c ≤ fscale a b nb ne v1 c) := by
  have hab' : ¬ a > b := not_lt.mpr hab.le
  have h1 := clampInput_mem a b v1 hab.le
  have h2 := clampInput_mem a b v2 hab.le
  have hmono := clampInput_mono a b hv
  have hspan : (0:ℝ) < b - a := by linarith
  have ht12 : (clampInput a b v1 - a) / (b - a) ≤ (clampInput a b v2 - a) / (b - a) :=
    (div_le_div_iff_of_pos_right hspan).mpr (by linarith)
  have ht10 : 0 ≤ (clampInput a b v1 - a) / (b - a) :=
    div_nonneg (by linarith [h1.1]) hspan.le
  have htk := Real.rpow_le_rpow ht10 ht12 (curveExp_pos c).le
  constructor
  · intro hne
    rw [fscale_asc v1 c hab' hne, fscale_asc v2 c hab' hne]
    nlinarith
  · intro hne'
    have hne : ¬ ne > nb := not_lt.mpr hne'
    rw [fscale_desc v1 c hab' hne, fscale_desc v2 c hab' hne]
    nlinarith

/-- Witness for `fscale_monotone` in the ascending direction on
`inMin = 0`, `inMax = 1`, `outA = 0`, `outB = 1`, `c = 0`. -/
theorem fscale_monotone_witness :
    ((0:ℝ) < 1 ∧ (0:ℝ) ≤ 1 ∧ (0:ℝ) < 1)
    ∧ fscale 0 1 0 1 0 0 ≤ fscale 0 1 0 1 1 0 :=
  ⟨by norm_num,
    (fscale_monotone 0 1 0 1 0 0 1 (by norm_num) (by norm_num)).1 (by norm_num)⟩

/-- Claim C6: with curvature `c = 0` the mapper is exact linear
interpolation, `outA + (value - inMin) / (inMax - inMin) * (outB - outA)`,
in both the ascending and the descending case. -/
theorem fscale_linear_at_curve_zero (a b nb ne v : ℝ)
    (hab : a < b) (h1 : a ≤ v) (h2 : v ≤ b) :
    fscale a b nb ne v 0 = nb + (v - a) / (b - a) * (ne - nb) := by
  have hab' : ¬ a > b := not_lt.mpr hab.le
  have hcl : clampInput a b v = v := clampInput_eq_self h1 h2
  by_cases hne : ne > nb
  · rw [fscale_asc v 0 hab' hne, hcl, curveExp_zero, Real.rpow_one]
    ring
  · rw [fscale_desc v 0 hab' hne, hcl, curveExp_zero, Real.rpow_one]
    ring

/-- Witness for `fscale_linear_at_curve_zero`: the specification
scenario `inMin = 100, inMax = 200, outA = 100, outB = 40, value = 150`
maps linearly to the midpoint note 70. -/
theorem fscale_linear_at_curve_zero_witness :
    ((100:ℝ) < 200 ∧ (100:ℝ) ≤ 150 ∧ (150:ℝ) ≤ 200)
    ∧ fscale 100 200 100 40 150 0 = 70 :=
  ⟨by norm_num,
    (fscale_linear_at_curve_zero 100 200 100 40 150 (by norm_num) (by norm_num)
      (by norm_num)).trans (by norm_num)⟩

/-! The poll loop.  The mutable globals of the sketch form the state;
one call of `loop()` consumes one `Input` (the two edge-triggered touch
signals and the two filtered proximity readings delivered by the MPR121
driver that iteration) and produces the next state together with the
bytes written to the MIDI serial port. -/

/-- The mutable globals of the sketch that the poll loop reads and
writes.  `level_pitch` and `level_volume` hold the reading of the
previous poll (the `level_*_old` temporaries of the source are the values
these fields carry on entry). -/
structure ThereminState where
  level_pitch : ℤ
  level_volume : ℤ
  note : ℕ
  note_old : ℕ
  volume : ℕ
  volume_old : ℕ
  min_level_pitch : ℤ
  max_level_pitch : ℤ
  min_level_volume : ℤ
  max_level_volume : ℤ
  instrument : ℕ

/-- What the touch driver delivers to one iteration of `loop()`. -/
structure Input where
  instr_up : Bool
  instr_down : Bool
  reading_pitch : ℤ
  reading_volume : ℤ

/-- The global state at the end of `setup()`: the initialization values
of the globals (`instrument = 80 - 1`, dummy calibration sentinels 1000
and 0). -/
def initState : ThereminState :=
  { level_pitch := 0, level_volume := 0, note := 0, note_old := 0,
    volume := 0, volume_old := 0,
    min_level_pitch := 1000, max_level_pitch := 0,
    min_level_volume := 1000, max_level_volume := 0,
    instrument := 80 - 1 }

/-- `if (level > max) max = level;` from the loop. -/
def updMax (mx reading : ℤ) : ℤ := if reading > mx then reading else mx

/-- `if (level < min) min = level;` from the loop. -/
def updMin (mn reading : ℤ) : ℤ := if reading < mn then reading else mn

/-- The implicit C float-to-byte store: truncation toward zero, which is
`Int.floor` for the nonnegative mapper outputs arising here. -/
noncomputable def toByte (x : ℝ) : ℕ := (⌊x⌋).toNat

/-- The all-notes-off threshold signal of the pitch branch:
`fscale(min_level_pitch, max_level_pitch, 0, 1, level_pitch,
nonlinear_pitch)` with the min/max already updated by the current
reading. -/
noncomputable def pitchFraction (st : ThereminState) (reading : ℤ) : ℝ :=
  fscale (updMin st.min_level_pitch reading) (updMax st.max_level_pitch reading)
    0 1 reading nonlinear_pitch

/-- The note computed in the pitch branch (direction 0 maps touch to the
highest note; either way through `fscale` on the updated range). -/
noncomputable def pitchNote (st : ThereminState) (reading : ℤ) : ℕ :=
  if direction_pitch = 0 then
    toByte (fscale (updMin st.min_level_pitch reading)
      (updMax st.max_level_pitch reading) max_note min_note reading nonlinear_pitch)
  else if direction_pitch = 1 then
    toByte (fscale (updMin st.min_level_pitch reading)
      (updMax st.max_level_pitch reading) min_note max_note reading nonlinear_pitch)
  else st.note

/-- The pitch section of `loop()` (lines 196-232 of the sketch). -/
noncomputable def pitchStep (st : ThereminState) (reading : ℤ) :
    ThereminState × List ℕ :=
  if reading ≠ st.level_pitch then
    if pitchFraction st reading ≥ 0.95 then
      ({ st with
          level_pitch := reading
          max_level_pitch := updMax st.max_level_pitch reading
          min_level_pitch := updMin st.min_level_pitch reading
          note_old := st.note },
        noteOff 0 st.note_old velocity ++ noteOff 0 st.note velocity)
    else
      if pitchNote st reading ≠ st.note_old then
        ({ st with
            level_pitch := reading
            max_level_pitch := updMax st.max_level_pitch reading
            min_level_pitch := updMin st.min_level_pitch reading
            note := pitchNote st reading
            note_old := pitchNote st reading },
          noteOn 0 (pitchNote st reading) velocity
            ++ noteOff 0 st.note_old velocity)
      else
        ({ st with
            level_pitch := reading
            max_level_pitch := updMax st.max_level_pitch reading
            min_level_pitch := updMin st.min_level_pitch reading
            note := pitchNote st reading }, [])
  else
    ({ st with level_pitch := reading }, [])

/-- The volume computed in the volume branch.  Note the source reads the
still-unchanged `min_level_volume` here: the mapping only runs in the
`else` of the min-tracking check. -/
noncomputable def volumeVal (st : ThereminState) (reading : ℤ) : ℕ :=
  if direction_volume = 0 then
    toByte (fscale st.min_level_volume (updMax st.max_level_volume reading)
      max_volume min_volume reading nonlinear_volume)
  else if direction_volume = 1 then
    toByte (fscale st.min_level_volume (updMax st.max_level_volume reading)
      min_volume max_volume reading nonlinear_volume)
  else st.volume

/-- The volume section of `loop()` (lines 234-260).  The `else` of
`if (level_volume < min_level_volume)` carries the whole set-volume
block, exactly as in the source. -/
noncomputable def volumeStep (st : ThereminState) (reading : ℤ) :
    ThereminState × List ℕ :=
  if reading ≠ st.level_volume then
    if reading < st.min_level_volume then
      ({ st with
          level_volume := reading
          max_level_volume := updMax st.max_level_volume reading
          min_level_volume := reading }, [])
    else
      if volumeVal st reading ≠ st.volume_old then
        ({ st with
            level_volume := reading
            max_level_volume := updMax st.max_level_volume reading
            volume := volumeVal st reading
            volume_old := volumeVal st reading },
          talkMIDI 0xB0 0x07 (volumeVal st reading))
      else
        ({ st with
            level_volume := reading
            max_level_volume := updMax st.max_level_volume reading
            volume := volumeVal st reading }, [])
  else
    ({ st with level_volume := reading }, [])

/-- The instrument section of `loop()` (lines 177-194): up has priority,
a change emits a program change followed by note-offs for the old and the
current note. -/
def instrStep (st : ThereminState) (up down : Bool) : ThereminState × List ℕ :=
  if up then
    ({ st with instrument := change_instrument st.instrument 1 },
      talkMIDI 0xC0 (change_instrument st.instrument 1) 0
        ++ noteOff 0 st.note_old velocity ++ noteOff 0 st.note velocity)
  else if down then
    ({ st with instrument := change_instrument st.instrument (-1) },
      talkMIDI 0xC0 (change_instrument st.instrument (-1)) 0
        ++ noteOff 0 st.note_old velocity ++ noteOff 0 st.note velocity)
  else (st, [])

/-- One iteration of `loop()`: instrument edges, then pitch, then
volume. -/
noncomputable def loopStep (st : ThereminState) (inp : Input) :
    ThereminState × List ℕ :=
  let r1 := instrStep st inp.instr_up inp.instr_down
  let r2 := pitchStep r1.1 inp.reading_pitch
  let r3 := volumeStep r2.1 inp.reading_volume
  (r3.1, r1.2 ++ r2.2 ++ r3.2)

/-- Iterating `loop()` from a given state over a list of inputs. -/
noncomputable def runFrom (st : ThereminState) (l : List Input) : ThereminState :=
  l.foldl (fun s i => (loopStep s i).1) st

/-- Iterating `loop()` from startup. -/
noncomputable def run (l : List Input) : ThereminState := runFrom initState l

lemma loopStep_fst (st : ThereminState) (i : Input) :
    (loopStep st i).1 =
      (volumeStep (pitchStep (instrStep st i.instr_up i.instr_down).1
        i.reading_pitch).1 i.reading_volume).1 := rfl

/-- `volumeStep` never touches the pitch-side or instrument fields. -/
lemma volumeStep_other_fields (st : ThereminState) (r : ℤ) :
    (volumeStep st r).1.min_level_pitch = st.min_level_pitch
    ∧ (volumeStep st r).1.max_level_pitch = st.max_level_pitch
    ∧ (volumeStep st r).1.level_pitch = st.level_pitch
    ∧ (volumeStep st r).1.note = st.note
    ∧ (volumeStep st r).1.note_old = st.note_old
    ∧ (volumeStep st r).1.instrument = st.instrument := by
  simp only [volumeStep]
  split_ifs <;> simp

/-- `pitchStep` never touches the volume-side or instrument fields. -/
lemma pitchStep_other_fields (st : ThereminState) (r : ℤ) :
    (pitchStep st r).1.min_level_volume = st.min_level_volume
    ∧ (pitchStep st r).1.max_level_volume = st.max_level_volume
    ∧ (pitchStep st r).1.level_volume = st.level_volume
    ∧ (pitchStep st r).1.volume = st.volume
    ∧ (pitchStep st r).1.volume_old = st.volume_old
    ∧ (pitchStep st r).1.instrument = st.instrument := by
  simp only [pitchStep]
  split_ifs <;> simp

/-- `instrStep` only touches the instrument field. -/
lemma instrStep_other_fields (st : ThereminState) (u d : Bool) :
    (instrStep st u d).1.min_level_pitch = st.min_level_pitch
    ∧ (instrStep st u d).1.max_level_pitch = st.max_level_pitch
    ∧ (instrStep st u d).1.level_pitch = st.level_pitch
    ∧ (instrStep st u d).1.min_level_volume = st.min_level_volume
    ∧ (instrStep st u d).1.max_level_volume = st.max_level_volume
    ∧ (instrStep st u d).1.level_volume = st.level_volume
    ∧ (instrStep st u d).1.note = st.note
    ∧ (instrStep st u d).1.note_old = st.note_old
    ∧ (instrStep st u d).1.volume = st.volume
    ∧ (instrStep st u d).1.volume_old = st.volume_old := by
  simp only [instrStep]
  split_ifs <;> simp

/-- A calibrated mid-session volume state: range `[500, 600]`, last
reading 600, last emitted volume 90. -/
def volCalibState : ThereminState :=
  { level_pitch := 0, level_volume := 600, note := 0, note_old := 0,
    volume := 90, volume_old := 90,
    min_level_pitch := 1000, max_level_pitch := 0,
    min_level_volume := 500, max_level_volume := 600,
    instrument := 80 - 1 }

/-- Claim C2 (failing input): a changed volume sample that is a new
observed minimum (here 400 against range `[500, 600]`) widens the range
but is claimed to also recompute and compare the mapped volume.  The code
skips the whole set-volume block in this case - the `else` binds to the
min-tracking check - so no control change is emitted and neither `volume`
nor `volume_old` is recomputed or updated. -/
theorem volume_skipped_on_new_min :
    (volumeStep volCalibState 400).2 = []
    ∧ (volumeStep volCalibState 400).1.volume = volCalibState.volume
    ∧ (volumeStep volCalibState 400).1.volume_old = volCalibState.volume_old
    ∧ (volumeStep volCalibState 400).1.min_level_volume = 400
    ∧ (400:ℤ) ≠ volCalibState.level_volume := by
  have h1 : (400:ℤ) ≠ volCalibState.level_volume := by decide
  have h2 : (400:ℤ) < volCalibState.min_level_volume := by decide
  refine ⟨?_, ?_, ?_, ?_, h1⟩ <;>
    simp [volumeStep, if_pos h1, if_pos h2]

/-- The input of the first poll after startup in the claim C3 scenario:
no instrument edge, pitch reading 500, volume reading still 0. -/
def firstPitchInput : Input :=
  { instr_up := false, instr_down := false, reading_pitch := 500, reading_volume := 0 }

/-- Claim C3 (failing input): starting from the post-`setup()` state, the
very first poll whose pitch reading changed (here reading 500 against the
sentinel range `[1000, 0]`) updates both `min_level_pitch` and
`max_level_pitch` to the reading and then invokes `fscale` with that
degenerate range `[500, 500]` - zero span - as its first two arguments,
both for the threshold fraction and (in the sounding branch) for the note.
So the mapper division is not guarded at this reachable call site. -/
theorem fscale_zero_span_reachable :
    updMin initState.min_level_pitch 500 = updMax initState.max_level_pitch 500
    ∧ (500:ℤ) ≠ initState.level_pitch
    ∧ (run [firstPitchInput]).min_level_pitch
        = (run [firstPitchInput]).max_level_pitch := by
  refine ⟨by decide, by decide, ?_⟩
  have hrun : run [firstPitchInput]
      = (volumeStep (pitchStep initState 500).1 0).1 := by
    simp only [run, runFrom, List.foldl_cons, List.foldl_nil, loopStep_fst]
    rfl
  rw [hrun, (volumeStep_other_fields _ _).1, (volumeStep_other_fields _ _).2.1]
  have h1 : (500:ℤ) ≠ initState.level_pitch := by decide
  simp only [pitchStep, if_pos h1]
  split_ifs <;> simp [updMin, updMax, initState]

/-! Evaluation lemmas for the configured curvature `-10`, used to
evaluate the loop model at concrete inputs. -/

lemma fscale_asc_eval {a b : ℝ} (nb ne v : ℝ)
    (hab : a < b) (h1 : a ≤ v) (h2 : v ≤ b) (hne : ne > nb) :
    fscale a b nb ne v (-10) = ((v - a) / (b - a)) ^ (10:ℕ) * (ne - nb) + nb := by
  rw [fscale_asc v (-10) (not_lt.mpr hab.le) hne, clampInput_eq_self h1 h2,
    curveExp_neg_ten, show ((10:ℝ)) = ((10:ℕ):ℝ) by norm_num, Real.rpow_natCast]

lemma fscale_desc_eval {a b : ℝ} (nb ne v : ℝ)
    (hab : a < b) (h1 : a ≤ v) (h2 : v ≤ b) (hne : ¬ ne > nb) :
    fscale a b nb ne v (-10) = nb - ((v - a) / (b - a)) ^ (10:ℕ) * (nb - ne) := by
  rw [fscale_desc v (-10) (not_lt.mpr hab.le) hne, clampInput_eq_self h1 h2,
    curveExp_neg_ten, show ((10:ℝ)) = ((10:ℕ):ℝ) by norm_num, Real.rpow_natCast]

/-- Claim C9: on a poll whose pitch sample changed, whose proximity
fraction is below 0.95, and whose newly computed note equals the
currently sounding note (`note`, which on every reachable state equals
`note_old`, the value the source compares against), the pitch section
emits no MIDI bytes at all. -/
theorem pitch_no_retrigger (st : ThereminState) (r : ℤ)
    (hr : r ≠ st.level_pitch)
    (hf : pitchFraction st r < 0.95)
    (hn : pitchNote st r = st.note)
    (hold : st.note_old = st.note) :
    (pitchStep st r).2 = [] := by
  have h2 : ¬ pitchFraction st r ≥ 0.95 := not_le.mpr hf
  have h3 : ¬ pitchNote st r ≠ st.note_old := by
    rw [hn, hold]
    exact fun h => h rfl
  simp only [pitchStep, if_pos hr, if_neg h2, if_neg h3]

/-- A calibrated mid-session pitch state for the witness: range
`[0, 1000]`, sounding note 99, previous reading 400. -/
def midPitchState : ThereminState :=
  { level_pitch := 400, level_volume := 0, note := 99, note_old := 99,
    volume := 0, volume_old := 0,
    min_level_pitch := 0, max_level_pitch := 1000,
    min_level_volume := 1000, max_level_volume := 0,
    instrument := 80 - 1 }

lemma toByte_eq {x : ℝ} {n : ℕ} (h1 : (n:ℝ) ≤ x) (h2 : x < n + 1) :
    toByte x = n := by
  simp only [toByte]
  have hfl : ⌊x⌋ = (n:ℤ) := by
    rw [Int.floor_eq_iff]
    constructor
    · exact_mod_cast h1
    · push_cast
      exact h2
  rw [hfl]
  simp

lemma midPitch_fraction : pitchFraction midPitchState 500 = 1 / 1024 := by
  have e1 : updMin midPitchState.min_level_pitch 500 = 0 := by decide
  have e2 : updMax midPitchState.max_level_pitch 500 = 1000 := by decide
  simp only [pitchFraction, nonlinear_pitch, e1, e2]
  push_cast
  rw [fscale_asc_eval 0 1 500 (by norm_num) (by norm_num) (by norm_num) (by norm_num)]
  norm_num

lemma midPitch_note : pitchNote midPitchState 500 = 99 := by
  have e1 : updMin midPitchState.min_level_pitch 500 = 0 := by decide
  have e2 : updMax midPitchState.max_level_pitch 500 = 1000 := by decide
  simp only [pitchNote, direction_pitch, nonlinear_pitch, max_note, min_note, e1, e2,
    if_pos]
  push_cast
  rw [fscale_desc_eval 100 40 500 (by norm_num) (by norm_num) (by norm_num) (by norm_num)]
  apply toByte_eq <;> norm_num

/-- Witness for `pitch_no_retrigger`: from the calibrated state with
sounding note 99, reading 500 changes the sample, gives fraction
`1/1024 < 0.95`, recomputes note 99, and emits nothing. -/
theorem pitch_no_retrigger_witness :
    ((500:ℤ) ≠ midPitchState.level_pitch
      ∧ pitchFraction midPitchState 500 < 0.95
      ∧ pitchNote midPitchState 500 = midPitchState.note
      ∧ midPitchState.note_old = midPitchState.note)
    ∧ (pitchStep midPitchState 500).2 = [] := by
  have hf : pitchFraction midPitchState 500 < 0.95 := by
    rw [midPitch_fraction]
    norm_num
  have hn : pitchNote midPitchState 500 = midPitchState.note := midPitch_note
  exact ⟨⟨by decide, hf, hn, by decide⟩,
    pitch_no_retrigger midPitchState 500 (by decide) hf hn (by decide)⟩

/-! The `note_old = note` loop invariant (claim C10). -/

lemma instrStep_notes (st : ThereminState) (u d : Bool) :
    (instrStep st u d).1.note = st.note
    ∧ (instrStep st u d).1.note_old = st.note_old := by
  simp only [instrStep]
  split_ifs <;> simp

lemma volumeStep_notes (st : ThereminState) (r : ℤ) :
    (volumeStep st r).1.note = st.note
    ∧ (volumeStep st r).1.note_old = st.note_old := by
  simp only [volumeStep]
  split_ifs <;> simp

lemma pitchStep_note_inv (st : ThereminState) (r : ℤ)
    (h : st.note_old = st.note) :
    (pitchStep st r).1.note_old = (pitchStep st r).1.note := by
  simp only [pitchStep]
  split_ifs with h1 h2 h3
  · simp
  · simp
  · push_neg at h3
    simp [h3]
  · simpa using h

lemma loopStep_note_inv (st : ThereminState) (i : Input)
    (h : st.note_old = st.note) :
    (loopStep st i).1.note_old = (loopStep st i).1.note := by
  rw [loopStep_fst, (volumeStep_notes _ _).1, (volumeStep_notes _ _).2]
  apply pitchStep_note_inv
  rw [(instrStep_notes _ _ _).1, (instrStep_notes _ _ _).2]
  exact h

lemma runFrom_note_inv (l : List Input) :
    ∀ st : ThereminState, st.note_old = st.note →
      (runFrom st l).note_old = (runFrom st l).note := by
  induction l with
  | nil => intro st h; simpa [runFrom] using h
  | cons i l ih => exact fun st h => ih _ (loopStep_note_inv st i h)

/-- Claim C10: at startup and after every iteration of the poll loop the
stored previous note equals the stored current note (`note_old = note`);
consequently the two note-off messages the instrument branch emits always
name the same note number. -/
theorem note_old_equals_note :
    (∀ l : List Input, (run l).note_old = (run l).note)
    ∧ (∀ l : List Input,
        (instrStep (run l) true false).2
          = talkMIDI 0xC0 (change_instrument (run l).instrument 1) 0
            ++ noteOff 0 (run l).note velocity ++ noteOff 0 (run l).note velocity) := by
  have hmain : ∀ l : List Input, (run l).note_old = (run l).note :=
    fun l => runFrom_note_inv l initState rfl
  refine ⟨hmain, fun l => ?_⟩
  simp [instrStep, hmain l]

/-! Calibration-range lemmas (claim C7). -/

lemma updMin_le (mn r : ℤ) : updMin mn r ≤ mn := by
  simp only [updMin]
  split_ifs <;> omega

lemma updMin_le_reading (mn r : ℤ) : updMin mn r ≤ r := by
  simp only [updMin]
  split_ifs <;> omega

lemma le_updMax (mx r : ℤ) : mx ≤ updMax mx r := by
  simp only [updMax]
  split_ifs <;> omega

lemma reading_le_updMax (mx r : ℤ) : r ≤ updMax mx r := by
  simp only [updMax]
  split_ifs <;> omega

lemma pitchStep_range (st : ThereminState) (r : ℤ) :
    (pitchStep st r).1.min_level_pitch ≤ st.min_level_pitch
    ∧ st.max_level_pitch ≤ (pitchStep st r).1.max_level_pitch := by
  simp only [pitchStep]
  split_ifs <;> constructor <;> simp [updMin_le, le_updMax]

lemma volumeStep_range (st : ThereminState) (r : ℤ) :
    (volumeStep st r).1.min_level_volume ≤ st.min_level_volume
    ∧ st.max_level_volume ≤ (volumeStep st r).1.max_level_volume := by
  simp only [volumeStep]
  split_ifs <;> constructor <;> ((try simp [updMin_le, le_updMax]) <;> omega)

lemma loopStep_range (st : ThereminState) (i : Input) :
    (loopStep st i).1.min_level_pitch ≤ st.min_level_pitch
    ∧ st.max_level_pitch ≤ (loopStep st i).1.max_level_pitch
    ∧ (loopStep st i).1.min_level_volume ≤ st.min_level_volume
    ∧ st.max_level_volume ≤ (loopStep st i).1.max_level_volume := by
  rw [loopStep_fst]
  obtain ⟨hi1, hi2, -, hi4, hi5, -, -, -, -, -⟩ :=
    instrStep_other_fields st i.instr_up i.instr_down
  obtain ⟨hp1, hp2⟩ :=
    pitchStep_range (instrStep st i.instr_up i.instr_down).1 i.reading_pitch
  obtain ⟨hpo1, hpo2, -, -, -, -⟩ :=
    pitchStep_other_fields (instrStep st i.instr_up i.instr_down).1 i.reading_pitch
  obtain ⟨hv1, hv2⟩ := volumeStep_range
    (pitchStep (instrStep st i.instr_up i.instr_down).1 i.reading_pitch).1 i.reading_volume
  obtain ⟨hvo1, hvo2, -, -, -, -⟩ := volumeStep_other_fields
    (pitchStep (instrStep st i.instr_up i.instr_down).1 i.reading_pitch).1 i.reading_volume
  refine ⟨?_, ?_, ?_, ?_⟩ <;> omega

lemma runFrom_range (l : List Input) : ∀ st : ThereminState,
    (runFrom st l).min_level_pitch ≤ st.min_level_pitch
    ∧ st.max_level_pitch ≤ (runFrom st l).max_level_pitch
    ∧ (runFrom st l).min_level_volume ≤ st.min_level_volume
    ∧ st.max_level_volume ≤ (runFrom st l).max_level_volume := by
  induction l with
  | nil => intro st; simp [runFrom]
  | cons i l ih =>
      intro st
      have h1 := loopStep_range st i
      have h2 := ih (loopStep st i).1
      exact ⟨le_trans h2.1 h1.1, le_trans h1.2.1 h2.2.1,
        le_trans h2.2.2.1 h1.2.2.1, le_trans h1.2.2.2 h2.2.2.2⟩

lemma loopStep_pitch_mem (st : ThereminState) (i : Input)
    (hinv : 0 < st.level_pitch →
      st.min_level_pitch ≤ st.level_pitch ∧ st.level_pitch ≤ st.max_level_pitch)
    (hpos : 0 < i.reading_pitch) :
    ((loopStep st i).1.min_level_pitch ≤ i.reading_pitch
      ∧ i.reading_pitch ≤ (loopStep st i).1.max_level_pitch)
    ∧ (loopStep st i).1.level_pitch = i.reading_pitch := by
  rw [loopStep_fst]
  obtain ⟨hv1, hv2, hv3, -, -, -⟩ := volumeStep_other_fields
    (pitchStep (instrStep st i.instr_up i.instr_down).1 i.reading_pitch).1 i.reading_volume
  rw [hv1, hv2, hv3]
  obtain ⟨hi1, hi2, hi3, -, -, -, -, -, -, -⟩ :=
    instrStep_other_fields st i.instr_up i.instr_down
  by_cases hr : i.reading_pitch ≠ (instrStep st i.instr_up i.instr_down).1.level_pitch
  · simp only [pitchStep, if_pos hr]
    split_ifs <;> refine ⟨⟨?_, ?_⟩, ?_⟩ <;>
      simp [updMin_le_reading, reading_le_updMax]
  · push_neg at hr
    simp only [pitchStep, if_neg (not_not_intro hr)]
    have hl : st.level_pitch = i.reading_pitch := by rw [← hi3, ← hr]
    obtain ⟨ha, hb⟩ := hinv (by omega)
    refine ⟨⟨?_, ?_⟩, ?_⟩ <;> (try simp) <;> omega

lemma loopStep_volume_mem (st : ThereminState) (i : Input)
    (hinv : 0 < st.level_volume →
      st.min_level_volume ≤ st.level_volume ∧ st.level_volume ≤ st.max_level_volume)
    (hpos : 0 < i.reading_volume) :
    ((loopStep st i).1.min_level_volume ≤ i.reading_volume
      ∧ i.reading_volume ≤ (loopStep st i).1.max_level_volume)
    ∧ (loopStep st i).1.level_volume = i.reading_volume := by
  rw [loopStep_fst]
  obtain ⟨hi1, hi2, -, hi4, hi5, hi6, -, -, -, -⟩ :=
    instrStep_other_fields st i.instr_up i.instr_down
  obtain ⟨hp1, hp2, hp3, -, -, -⟩ :=
    pitchStep_other_fields (instrStep st i.instr_up i.instr_down).1 i.reading_pitch
  by_cases hr : i.reading_volume ≠
      (pitchStep (instrStep st i.instr_up i.instr_down).1 i.reading_pitch).1.level_volume
  · simp only [volumeStep, if_pos hr]
    split_ifs <;> refine ⟨⟨?_, ?_⟩, ?_⟩ <;>
      simp [reading_le_updMax] <;> omega
  · push_neg at hr
    simp only [volumeStep, if_neg (not_not_intro hr)]
    have hl : st.level_volume = i.reading_volume := (hr.trans (hp3.trans hi6)).symm
    obtain ⟨ha, hb⟩ := hinv (by omega)
    refine ⟨⟨?_, ?_⟩, ?_⟩ <;> (try simp) <;> omega

lemma runFrom_pitch_mem (l : List Input) : ∀ st : ThereminState,
    (0 < st.level_pitch →
      st.min_level_pitch ≤ st.level_pitch ∧ st.level_pitch ≤ st.max_level_pitch) →
    (∀ i ∈ l, 0 < i.reading_pitch) →
    ∀ i ∈ l, (runFrom st l).min_level_pitch ≤ i.reading_pitch
      ∧ i.reading_pitch ≤ (runFrom st l).max_level_pitch := by
  induction l with
  | nil => intro st _ _ i hi; exact absurd hi (List.not_mem_nil i)
  | cons j l ih =>
      intro st hinv hpos i hi
      have hjpos : 0 < j.reading_pitch := hpos j (List.mem_cons_self j l)
      have hstep := loopStep_pitch_mem st j hinv hjpos
      have hinv2 : 0 < (loopStep st j).1.level_pitch →
          (loopStep st j).1.min_level_pitch ≤ (loopStep st j).1.level_pitch
          ∧ (loopStep st j).1.level_pitch ≤ (loopStep st j).1.max_level_pitch := by
        intro h0
        rw [hstep.2]
        exact hstep.1
      have hpos2 : ∀ i ∈ l, 0 < i.reading_pitch :=
        fun i hi => hpos i (List.mem_cons_of_mem j hi)
      rcases List.mem_cons.mp hi with rfl | hi2
      · exact ⟨le_trans (runFrom_range l (loopStep st i).1).1 hstep.1.1,
          le_trans hstep.1.2 (runFrom_range l (loopStep st i).1).2.1⟩
      · exact ih (loopStep st j).1 hinv2 hpos2 i hi2

lemma runFrom_volume_mem (l : List Input) : ∀ st : ThereminState,
    (0 < st.level_volume →
      st.min_level_volume ≤ st.level_volume ∧ st.level_volume ≤ st.max_level_volume) →
    (∀ i ∈ l, 0 < i.reading_volume) →
    ∀ i ∈ l, (runFrom st l).min_level_volume ≤ i.reading_volume
      ∧ i.reading_volume ≤ (runFrom st l).max_level_volume := by
  induction l with
  | nil => intro st _ _ i hi; exact absurd hi (List.not_mem_nil i)
  | cons j l ih =>
      intro st hinv hpos i hi
      have hjpos : 0 < j.reading_volume := hpos j (List.mem_cons_self j l)
      have hstep := loopStep_volume_mem st j hinv hjpos
      have hinv2 : 0 < (loopStep st j).1.level_volume →
          (loopStep st j).1.min_level_volume ≤ (loopStep st j).1.level_volume
          ∧ (loopStep st j).1.level_volume ≤ (loopStep st j).1.max_level_volume := by
        intro h0
        rw [hstep.2]
        exact hstep.1
      have hpos2 : ∀ i ∈ l, 0 < i.reading_volume :=
        fun i hi => hpos i (List.mem_cons_of_mem j hi)
      rcases List.mem_cons.mp hi with rfl | hi2
      · exact ⟨le_trans (runFrom_range l (loopStep st i).1).2.2.1 hstep.1.1,
          le_trans hstep.1.2 (runFrom_range l (loopStep st i).1).2.2.2⟩
      · exact ih (loopStep st j).1 hinv2 hpos2 i hi2

/-- An input whose readings both equal the startup level sentinel 0. -/
def zeroInput : Input :=
  { instr_up := false, instr_down := false, reading_pitch := 0, reading_volume := 0 }

/-- An input with a small positive pitch reading. -/
def fiveInput : Input :=
  { instr_up := false, instr_down := false, reading_pitch := 5, reading_volume := 0 }

/-- Claim C7 (counterexample): as literally stated the membership
invariant fails.  A first pitch sample equal to the startup level
sentinel 0 is skipped by the changed-sample check (it never widens the
range), and the next sample 5 sets `min_level_pitch = 5`; the sample 0
seen earlier then violates `min ≤ sample`. -/
theorem calibration_membership_counterexample :
    ¬ (∀ i ∈ [zeroInput, fiveInput],
        (run [zeroInput, fiveInput]).min_level_pitch ≤ i.reading_pitch
          ∧ i.reading_pitch ≤ (run [zeroInput, fiveInput]).max_level_pitch) := by
  intro h
  have hrun : run [zeroInput, fiveInput] = (volumeStep (pitchStep initState 5).1 0).1 := rfl
  have hmin : (run [zeroInput, fiveInput]).min_level_pitch = 5 := by
    rw [hrun, (volumeStep_other_fields _ _).1]
    have h1 : (5:ℤ) ≠ initState.level_pitch := by decide
    simp only [pitchStep, if_pos h1]
    split_ifs <;> norm_num [updMin, initState]
  have h0 := (h zeroInput (by simp)).1
  rw [hmin] at h0
  norm_num [zeroInput] at h0

/-- Claim C7 (amended): the calibration range of each channel is
monotonically non-shrinking and never reset across the session, as
claimed; the membership half holds provided every sample is strictly
positive (above the max-side sentinel 0, as the sentinel design of the
data model presumes): then once a sample has been observed, every sample
seen so far lies within the stored `[min, max]`. -/
theorem calibration_range_props (l1 l2 : List Input) :
    ((run (l1 ++ l2)).min_level_pitch ≤ (run l1).min_level_pitch
      ∧ (run l1).max_level_pitch ≤ (run (l1 ++ l2)).max_level_pitch
      ∧ (run (l1 ++ l2)).min_level_volume ≤ (run l1).min_level_volume
      ∧ (run l1).max_level_volume ≤ (run (l1 ++ l2)).max_level_volume)
    ∧ ((∀ i ∈ l1, 0 < i.reading_pitch) →
        ∀ i ∈ l1, (run l1).min_level_pitch ≤ i.reading_pitch
          ∧ i.reading_pitch ≤ (run l1).max_level_pitch)
    ∧ ((∀ i ∈ l1, 0 < i.reading_volume) →
        ∀ i ∈ l1, (run l1).min_level_volume ≤ i.reading_volume
          ∧ i.reading_volume ≤ (run l1).max_level_volume) := by
  refine ⟨?_, ?_, ?_⟩
  · have he : run (l1 ++ l2) = runFrom (run l1) l2 := by
      simp [run, runFrom, List.foldl_append]
    rw [he]
    exact runFrom_range l2 (run l1)
  · exact fun hp => runFrom_pitch_mem l1 initState
      (fun h0 => absurd h0 (by decide)) hp
  · exact fun hv => runFrom_volume_mem l1 initState
      (fun h0 => absurd h0 (by decide)) hv

/-- Witness for `calibration_range_props` on the single positive pitch
sample 500. -/
theorem calibration_range_props_witness :
    (∀ i ∈ [firstPitchInput], 0 < i.reading_pitch)
    ∧ (∀ i ∈ [firstPitchInput],
        (run [firstPitchInput]).min_level_pitch ≤ i.reading_pitch
          ∧ i.reading_pitch ≤ (run [firstPitchInput]).max_level_pitch) := by
  have hp : ∀ i ∈ [firstPitchInput], (0:ℤ) < i.reading_pitch := by
    intro i hi
    rw [List.mem_singleton] at hi
    subst hi
    decide
  exact ⟨hp, (calibration_range_props [firstPitchInput] []).2.1 hp⟩

end MidiTheremin
